import Mathlib

/-!
Verification of the JTrading RSI backtest engine (src/backtest/*.py).

Prices, cash and share quantities are modelled as rationals, dates as
integers (day numbers).  `Option ℚ` models a possibly-NaN float cell.
Final 2-decimal display rounding applied by the scripts (`round(x, 2)`)
is omitted throughout; it affects only the serialized output.
-/

namespace JTrading

/-- Python `int(x)` truncation toward zero. -/
def pyint (q : ℚ) : ℤ := if q < 0 then ⌈q⌉ else ⌊q⌋

/-! ## Indicator Calculator (`calculate_rsi`, rsi_backtest.py lines 32-48;
the numpy variant in rsi_full_optimization.py lines 30-53 computes the
same series: its `isnan` guard on `avg_gain_arr[i-1]` is vacuous for
`i ≥ period` because the rolling mean is defined from index `period-1`). -/

/-- Embeds `gain = delta.where(delta > 0, 0)`: per-step gain; index 0 (where
`prices.diff()` is NaN, and NaN > 0 is false) holds 0. -/
def gainAt (prices : List ℚ) (i : ℕ) : ℚ :=
  if i = 0 then 0 else max (prices.getD i 0 - prices.getD (i - 1) 0) 0

/-- Embeds `loss = (-delta).where(delta < 0, 0)`: per-step loss; index 0 holds 0. -/
def lossAt (prices : List ℚ) (i : ℕ) : ℚ :=
  if i = 0 then 0 else max (prices.getD (i - 1) 0 - prices.getD i 0) 0

/-- The smoothed average series: `rolling(window=p, min_periods=p).mean()`
(defined from index `p-1`, NaN = `none` before) overwritten in place for
`i ≥ p` by the Wilder recursion `avg[i] = (avg[i-1]*(p-1) + v[i]) / p`. -/
def wilderAvg (v : ℕ → ℚ) (p : ℕ) : ℕ → Option ℚ
  | 0 => if p = 1 then some (((List.range p).map v).sum / (p : ℚ)) else none
  | (i + 1) =>
      if i + 2 < p then none
      else if i + 2 = p then some (((List.range p).map v).sum / (p : ℚ))
      else (wilderAvg v p i).map (fun prev => (prev * ((p : ℚ) - 1) + v (i + 1)) / (p : ℚ))

/-- IEEE-float semantics of `rs = avg_gain/avg_loss; rsi = 100 - 100/(1+rs)`:
for `al ≠ 0` it is the plain arithmetic expression; for `al = 0, ag ≠ 0`
the quotient is infinite so `100/(1+rs)` vanishes and the RSI is 100;
for `al = 0, ag = 0` the quotient is NaN (`none`). -/
def rsiOfAvgs (ag al : ℚ) : Option ℚ :=
  if al = 0 then (if ag = 0 then none else some 100)
  else some (100 - 100 / (1 + ag / al))

/-- The series `calculate_rsi(prices, period)` sampled at index `i`. -/
def calculate_rsi (prices : List ℚ) (p : ℕ) (i : ℕ) : Option ℚ :=
  match wilderAvg (gainAt prices) p i, wilderAvg (lossAt prices) p i with
  | some ag, some al => rsiOfAvgs ag al
  | _, _ => none

/-! ## Trade Simulator (`run_backtest`, rsi_backtest.py lines 100-181) -/

/-- Buy sizing `int(cash / price / 100) * 100` (whole lots of 100). -/
def lotBuyQty (cash price : ℚ) : ℚ := ((pyint (cash / price / 100) * 100 : ℤ) : ℚ)

/-- Sell sizing `int(shares / 100) * 100`. -/
def lotSellQty (shares : ℚ) : ℚ := ((pyint (shares / 100) * 100 : ℤ) : ℚ)

inductive Action where
  | buy
  | sell
deriving DecidableEq, Repr

/-- A record appended to `trades` (the `rsi` field is the raw trigger value;
the source stores it unrounded here). -/
structure Trade where
  date : ℤ
  action : Action
  price : ℚ
  shares : ℚ
  amount : ℚ
  rsi : ℚ
  total_shares : ℚ
  cash : ℚ
deriving DecidableEq, Repr

/-- The mutable loop variables of `run_backtest`: `cash`, `shares`, and the
`position` flag (0 = flat, 1 = long). -/
structure BTState where
  cash : ℚ
  shares : ℚ
  position : ℕ
deriving DecidableEq, Repr

/-- One day's signal evaluation in `run_backtest`: the `if pd.notna(rsi)`
block (lines 125-167).  Returns the new state and the trade appended, if
any. -/
def btDay (buyT sellT : ℚ) (date : ℤ) (price : ℚ) (rsi : Option ℚ)
    (st : BTState) : BTState × Option Trade :=
  match rsi with
  | none => (st, none)
  | some r =>
    if r < buyT ∧ st.position = 0 then
      let stb := lotBuyQty st.cash price
      if 0 < stb then
        let cost := stb * price
        let st2 : BTState := ⟨st.cash - cost, st.shares + stb, 1⟩
        (st2, some ⟨date, Action.buy, price, stb, cost, r, st2.shares, st2.cash⟩)
      else (st, none)
    else if sellT < r ∧ st.position = 1 then
      if 0 < st.shares then
        let ss := lotSellQty st.shares
        if 0 < ss then
          let revenue := ss * price
          let cash1 := st.cash + revenue
          let sh1 := st.shares - ss
          let fin : ℚ × ℚ := if sh1 < 100 then (cash1 + sh1 * price, 0) else (cash1, sh1)
          let st2 : BTState := ⟨fin.1, fin.2, 0⟩
          (st2, some ⟨date, Action.sell, price, ss, revenue, r, st2.shares, st2.cash⟩)
        else (st, none)
      else (st, none)
    else (st, none)

/-- A `daily_values` entry.  The `position` field records the live flag at
snapshot time (the loop variable `position`); the source serializes the
other fields only. -/
structure DailyValue where
  date : ℤ
  close : ℚ
  rsi : Option ℚ
  cash : ℚ
  shares : ℚ
  total_value : ℚ
  ret : ℚ
  position : ℕ
deriving DecidableEq, Repr

/-- Accumulated outputs of the day loop. -/
structure SimAcc where
  st : BTState
  trades : List Trade
  dvs : List DailyValue
deriving DecidableEq, Repr

/-- One full iteration of the `for i, row in df.iterrows()` loop of
`run_backtest`: signal evaluation, then the day-end snapshot from the
post-signal state. -/
def simStep (buyT sellT cap : ℚ) (acc : SimAcc) (inp : ℤ × ℚ × Option ℚ) : SimAcc :=
  let pr := btDay buyT sellT inp.1 inp.2.1 inp.2.2 acc.st
  let tv := pr.1.cash + pr.1.shares * inp.2.1
  ⟨pr.1, acc.trades ++ pr.2.toList,
    acc.dvs ++ [⟨inp.1, inp.2.1, inp.2.2, pr.1.cash, pr.1.shares, tv,
      (tv / cap - 1) * 100, pr.1.position⟩]⟩

/-- The day loop run from the initial state (`cash = initial_capital`,
`shares = 0`, flat) over explicit `(date, close, rsi)` rows. -/
def run_backtest_rows (buyT sellT cap : ℚ) (rows : List (ℤ × ℚ × Option ℚ)) : SimAcc :=
  rows.foldl (simStep buyT sellT cap) ⟨⟨cap, 0, 0⟩, [], []⟩

/-- Embeds `run_backtest(df, initial_capital)`: computes the RSI column from the
closes, then runs the day loop. -/
def run_backtest (p : ℕ) (buyT sellT cap : ℚ) (days : List (ℤ × ℚ)) : SimAcc :=
  run_backtest_rows buyT sellT cap
    ((List.range days.length).map (fun i =>
      ((days.getD i (0, 0)).1, (days.getD i (0, 0)).2,
        calculate_rsi (days.map Prod.snd) p i)))

/-! ## Buy-and-hold baseline (`calculate_buy_and_hold`, rsi_backtest.py
lines 184-205; `calculate_daily_values` of add_nasdaq_data.py lines 43-66
is the same computation after a date filter). -/

/-- A `{date, total_value, return}` record. -/
structure ValuePoint where
  date : ℤ
  total_value : ℚ
  ret : ℚ
deriving DecidableEq, Repr

/-- Embeds `calculate_buy_and_hold(df, initial_capital)`.  On an empty frame the
source raises at `df.iloc[0]`; the claims quantify over nonempty series. -/
def calculate_buy_and_hold (cap : ℚ) (days : List (ℤ × ℚ)) : List ValuePoint :=
  match days with
  | [] => []
  | (_, p0) :: _ =>
    let shares := lotBuyQty cap p0
    let remaining := cap - shares * p0
    days.map (fun dp =>
      ⟨dp.1, remaining + shares * dp.2, ((remaining + shares * dp.2) / cap - 1) * 100⟩)

/-! ## Benchmark Aligner (`calculate_benchmark_return`, rsi_backtest.py
lines 208-249, reference-dates branch). -/

/-- The `date_price_map` dict, built row by row, later rows overwriting. -/
def datePriceMap (rows : List (ℤ × ℚ)) (d : ℤ) : Option ℚ :=
  rows.foldl (fun acc r => if r.1 = d then some r.2 else acc) none

/-- Loop state of the aligner: `start_price` (None until first match) and
the output list. -/
structure BenchAcc where
  start_price : Option ℚ
  values : List ValuePoint
deriving DecidableEq, Repr

/-- One iteration of `for date_str in reference_dates` (lines 230-247). -/
def benchStep (cap : ℚ) (m : ℤ → Option ℚ) (acc : BenchAcc) (d : ℤ) : BenchAcc :=
  match m d with
  | some price =>
    let sp := acc.start_price.getD price
    let tv := cap * (price / sp)
    ⟨some sp, acc.values ++ [⟨d, tv, (tv / cap - 1) * 100⟩]⟩
  | none =>
    match acc.values.getLast? with
    | some lastv => ⟨acc.start_price, acc.values ++ [⟨d, lastv.total_value, lastv.ret⟩]⟩
    | none => acc

/-- Embeds `calculate_benchmark_return(df, initial_capital, reference_dates)`. -/
def calculate_benchmark_return (cap : ℚ) (rows : List (ℤ × ℚ)) (refDates : List ℤ) :
    List ValuePoint :=
  (refDates.foldl (benchStep cap (datePriceMap rows)) ⟨none, []⟩).values

/-! ## Statistics Engine (`calculate_statistics`, rsi_backtest.py
lines 267-317, annualized-return and trade-count parts). -/

/-- Embeds `calendar_days = (end_date - start_date).days` over the DailyValue
dates (lines 290-292). -/
def stats_calendar_days (dvs : List DailyValue) : ℤ :=
  (dvs.getLast?.elim 0 DailyValue.date) - (dvs.head?.elim 0 DailyValue.date)

/-- Embeds `trade_count = len(buy_trades)` (lines 296, 311). -/
def stats_trade_count (trades : List Trade) : ℕ :=
  (trades.filter (fun t => t.action = Action.buy)).length

/-- Embeds `annual_return = ((1 + total_return/100) ** (365/calendar_days) - 1) * 100
if calendar_days > 0 else 0` (line 293), with the float power as a real
power. -/
noncomputable def annual_return_of (total_return : ℝ) (cdays : ℤ) : ℝ :=
  if 0 < cdays then ((1 + total_return / 100) ^ ((365 : ℝ) / (cdays : ℝ)) - 1) * 100 else 0

/-- The annualized-return statistic: `total_return = returns[-1]` fed with
the calendar-day span of the DailyValue dates. -/
noncomputable def stats_annual_return (dvs : List DailyValue) : ℝ :=
  annual_return_of ((dvs.getLast?.elim 0 DailyValue.ret : ℚ) : ℝ) (stats_calendar_days dvs)

/-- The helper `calc_annual` from rsi_params_test.py `main` (lines 190-192): the same
power formula but fed `days = len(df)`, the number of trading rows. -/
noncomputable def params_calc_annual (total_ret : ℝ) (days : ℕ) : ℝ :=
  ((1 + total_ret / 100) ^ ((365 : ℝ) / (days : ℝ)) - 1) * 100

/-! ## Parameter-Sweep Optimizer (rsi_full_optimization.py). -/

/-- Loop variables of the optimizer's `run_backtest` (lines 61-66).
`buys` is a ghost counter of executed buy transitions (the source records
no trade list; the buy branch is where a buy Trade would be recorded). -/
structure OptState where
  cash : ℚ
  shares : ℚ
  position : ℕ
  trade_count : ℕ
  wins : ℕ
  buy_price : ℚ
  buys : ℕ
deriving DecidableEq, Repr

/-- One day of the optimizer's `run_backtest` (lines 68-96).  Note
`trade_count` is incremented in the sell branch only. -/
def optDay (buyT sellT : ℚ) (price : ℚ) (rsi : Option ℚ) (st : OptState) : OptState :=
  match rsi with
  | none => st
  | some r =>
    if r < buyT ∧ st.position = 0 then
      let stb := lotBuyQty st.cash price
      if 0 < stb then
        { st with cash := st.cash - stb * price, shares := st.shares + stb,
                  position := 1, buy_price := price, buys := st.buys + 1 }
      else st
    else if sellT < r ∧ st.position = 1 then
      if 0 < st.shares then
        let ss := lotSellQty st.shares
        if 0 < ss then
          let cash1 := st.cash + ss * price
          let fin : ℚ × ℚ :=
            if st.shares - ss < 100 then (cash1 + (st.shares - ss) * price, 0)
            else (cash1, st.shares - ss)
          { st with cash := fin.1, shares := fin.2, position := 0,
                    trade_count := st.trade_count + 1,
                    wins := if st.buy_price < price then st.wins + 1 else st.wins }
        else st
      else st
    else st

def INITIAL_CAPITAL : ℚ := 100000

/-- The optimizer's `run_backtest(df, rsi_period, buy_threshold,
sell_threshold)` signal loop, returning the final loop state. -/
def opt_run_backtest (p : ℕ) (buyT sellT : ℚ) (closes : List ℚ) : OptState :=
  (List.range closes.length).foldl
    (fun st i => optDay buyT sellT (closes.getD i 0) (calculate_rsi closes p i) st)
    ⟨INITIAL_CAPITAL, 0, 0, 0, 0, 0, 0⟩

/-- Embeds `test_single_combination` (lines 156-162): rejects `buy ≥ sell` before
simulating. -/
def test_single_combination (p : ℕ) (buyT sellT : ℚ) (closes : List ℚ) : Option OptState :=
  if sellT ≤ buyT then none else some (opt_run_backtest p buyT sellT closes)

/-- The grid `RSI_PERIODS = range(3, 21)`. -/
def RSI_PERIODS : List ℕ := List.range' 3 18

/-- The grid `BUY_THRESHOLDS = range(20, 51, 2)`. -/
def BUY_THRESHOLDS : List ℕ := List.range' 20 16 2

/-- The grid `SELL_THRESHOLDS = range(60, 91, 2)`. -/
def SELL_THRESHOLDS : List ℕ := List.range' 60 16 2

/-- The grid built in `main` (lines 199-204): only `buy_th < sell_th`
combinations are kept. -/
def sweep_combinations : List (ℕ × ℕ × ℕ) :=
  RSI_PERIODS.flatMap (fun p => BUY_THRESHOLDS.flatMap (fun b =>
    (SELL_THRESHOLDS.filter (fun s => b < s)).map (fun s => (p, b, s))))

/-- The sweep loop in `main` (lines 215-221): one backtest per kept
combination, results appended in order. -/
def sweep_results (closes : List ℚ) : List OptState :=
  sweep_combinations.map (fun c => opt_run_backtest c.1 (c.2.1 : ℚ) (c.2.2 : ℚ) closes)

/-! ## Dividend handling (`run_backtest_reinvest_immediate`,
rsi_dividend_test.py lines 69-126). -/

/-- Loop variables of `run_backtest_reinvest_immediate`.  Trade records
there hold `{date, action, rsi}`; the rounded `rsi` display field is
omitted. -/
structure DivState where
  cash : ℚ
  shares : ℚ
  position : ℕ
  dividend_total : ℚ
  trades : List (ℤ × Action)
deriving DecidableEq, Repr

/-- The dividend phase (lines 92-96): if the day has a dividend and
`shares > 0`, reinvest `shares * divPerUnit` at the close; cash untouched,
no trade appended. -/
def applyDividend (divOn : ℤ → Option ℚ) (date : ℤ) (price : ℚ) (st : DivState) : DivState :=
  match divOn date with
  | some dps =>
    if 0 < st.shares then
      { st with dividend_total := st.dividend_total + st.shares * dps,
                shares := st.shares + st.shares * dps / price }
    else st
  | none => st

/-- The signal phase (lines 98-116).  Unlike rsi_backtest.py, the sell
branch has no `sell_shares > 0` guard. -/
def divSignal (buyT sellT : ℚ) (date : ℤ) (price : ℚ) (rsi : Option ℚ)
    (st : DivState) : DivState :=
  match rsi with
  | none => st
  | some r =>
    if r < buyT ∧ st.position = 0 then
      let stb := lotBuyQty st.cash price
      if 0 < stb then
        { st with cash := st.cash - stb * price, shares := st.shares + stb,
                  position := 1, trades := st.trades ++ [(date, Action.buy)] }
      else st
    else if sellT < r ∧ st.position = 1 then
      if 0 < st.shares then
        let ss := lotSellQty st.shares
        let cash1 := st.cash + ss * price
        let sh1 := st.shares - ss
        let fin : ℚ × ℚ := if sh1 < 100 then (cash1 + sh1 * price, 0) else (cash1, sh1)
        { st with cash := fin.1, shares := fin.2, position := 0,
                  trades := st.trades ++ [(date, Action.sell)] }
      else st
    else st

/-- One full day: dividend first, then the signal evaluation. -/
def divDay (buyT sellT : ℚ) (divOn : ℤ → Option ℚ) (date : ℤ) (price : ℚ)
    (rsi : Option ℚ) (st : DivState) : DivState :=
  divSignal buyT sellT date price rsi (applyDividend divOn date price st)

/-- Embeds `run_backtest_reinvest_immediate(df, dividend_df, initial_capital)`;
period and thresholds are the script's module constants, taken here as
parameters. -/
def run_backtest_reinvest_immediate (p : ℕ) (buyT sellT cap : ℚ)
    (divOn : ℤ → Option ℚ) (days : List (ℤ × ℚ)) : DivState :=
  (List.range days.length).foldl
    (fun st i => divDay buyT sellT divOn (days.getD i (0, 0)).1 (days.getD i (0, 0)).2
      (calculate_rsi (days.map Prod.snd) p i) st)
    ⟨cap, 0, 0, 0, []⟩

/-! ## Helper lemmas -/

theorem pyint_of_nonneg {q : ℚ} (h : 0 ≤ q) : pyint q = ⌊q⌋ := by
  simp [pyint, not_lt.mpr h]

theorem lotSellQty_nonneg {shares : ℚ} (h : 0 ≤ shares) : 0 ≤ lotSellQty shares := by
  unfold lotSellQty
  rw [pyint_of_nonneg (by positivity)]
  have h0 : (0 : ℤ) ≤ ⌊shares / 100⌋ := Int.floor_nonneg.mpr (by positivity)
  exact_mod_cast Int.mul_nonneg h0 (by norm_num)

theorem lotSellQty_le {shares : ℚ} (h : 0 ≤ shares) : lotSellQty shares ≤ shares := by
  unfold lotSellQty
  rw [pyint_of_nonneg (by positivity)]
  have hf : ((⌊shares / 100⌋ : ℚ)) ≤ shares / 100 := Int.floor_le _
  have := mul_le_mul_of_nonneg_right hf (by norm_num : (0 : ℚ) ≤ 100)
  rw [div_mul_cancel₀ shares (by norm_num : (100 : ℚ) ≠ 0)] at this
  push_cast
  linarith

theorem sub_lotSellQty_lt {shares : ℚ} (h : 0 ≤ shares) :
    shares - lotSellQty shares < 100 := by
  unfold lotSellQty
  rw [pyint_of_nonneg (by positivity)]
  have hf : shares / 100 < (⌊shares / 100⌋ : ℚ) + 1 := Int.lt_floor_add_one _
  have := mul_lt_mul_of_pos_right hf (by norm_num : (0 : ℚ) < 100)
  rw [div_mul_cancel₀ shares (by norm_num : (100 : ℚ) ≠ 0)] at this
  push_cast
  linarith

theorem lotSellQty_pos_iff {shares : ℚ} (h : 0 < lotSellQty shares) : 100 ≤ shares := by
  rcases lt_or_le (shares / 100) 0 with hq | hq
  · exfalso
    have hc : pyint (shares / 100) = ⌈shares / 100⌉ := by simp [pyint, hq]
    have hce : ⌈shares / 100⌉ ≤ 0 := Int.ceil_le.mpr (by exact_mod_cast hq.le)
    unfold lotSellQty at h
    rw [hc] at h
    have hle : ((⌈shares / 100⌉ * 100 : ℤ) : ℚ) ≤ 0 := by
      exact_mod_cast Int.mul_nonpos_of_nonpos_of_nonneg hce (by norm_num)
    linarith
  · unfold lotSellQty at h
    rw [pyint_of_nonneg hq] at h
    have h1 : (0 : ℤ) < ⌊shares / 100⌋ * 100 := by exact_mod_cast h
    have h2 : (1 : ℤ) ≤ ⌊shares / 100⌋ := by omega
    have h3 : (1 : ℚ) ≤ shares / 100 := by exact_mod_cast Int.le_floor.mp h2
    linarith [(le_div_iff₀ (by norm_num : (0 : ℚ) < 100)).mp h3]

theorem lotBuyQty_nonneg {cash price : ℚ} (hc : 0 ≤ cash) (hp : 0 < price) :
    0 ≤ lotBuyQty cash price := by
  unfold lotBuyQty
  rw [pyint_of_nonneg (by positivity)]
  have h0 : (0 : ℤ) ≤ ⌊cash / price / 100⌋ := Int.floor_nonneg.mpr (by positivity)
  exact_mod_cast Int.mul_nonneg h0 (by norm_num)

theorem lotBuyQty_mul_le {cash price : ℚ} (hc : 0 ≤ cash) (hp : 0 < price) :
    lotBuyQty cash price * price ≤ cash := by
  unfold lotBuyQty
  rw [pyint_of_nonneg (by positivity)]
  have hf : ((⌊cash / price / 100⌋ : ℚ)) ≤ cash / price / 100 := Int.floor_le _
  have h1 : ((⌊cash / price / 100⌋ : ℚ)) * 100 ≤ cash / price := by
    have := mul_le_mul_of_nonneg_right hf (by norm_num : (0 : ℚ) ≤ 100)
    rw [div_mul_cancel₀ (cash / price) (by norm_num : (100 : ℚ) ≠ 0)] at this
    linarith
  have h2 := mul_le_mul_of_nonneg_right h1 hp.le
  rw [div_mul_cancel₀ cash (ne_of_gt hp)] at h2
  push_cast
  linarith

theorem foldl_invariant {α β : Type _} {P : α → Prop} (f : α → β → α) :
    ∀ (l : List β) (a : α), P a → (∀ x b, b ∈ l → P x → P (f x b)) → P (l.foldl f a)
  | [], _, ha, _ => ha
  | b :: l, a, ha, hstep =>
      foldl_invariant f l (f a b) (hstep a b (List.mem_cons_self b l) ha)
        (fun x c hc hx => hstep x c (List.mem_cons_of_mem b hc) hx)

theorem wilderAvg_undefined (v : ℕ → ℚ) (p i : ℕ) (h : i + 1 < p) :
    wilderAvg v p i = none := by
  cases i with
  | zero => simp [wilderAvg]; omega
  | succ j => simp only [wilderAvg]; rw [if_pos (by omega)]

theorem wilderAvg_seed (v : ℕ → ℚ) (p : ℕ) (hp : 1 ≤ p) :
    wilderAvg v p (p - 1) = some (((List.range p).map v).sum / (p : ℚ)) := by
  cases p with
  | zero => omega
  | succ k =>
    cases k with
    | zero => simp [wilderAvg]
    | succ j =>
        show wilderAvg v (j + 2) (j + 1) = _
        simp only [wilderAvg]
        rw [if_neg (by omega)]
        rw [if_pos trivial]

theorem wilderAvg_rec (v : ℕ → ℚ) (p i : ℕ) (hp : 1 ≤ p) (hi : p ≤ i) :
    wilderAvg v p i
      = (wilderAvg v p (i - 1)).map (fun prev => (prev * ((p : ℚ) - 1) + v i) / (p : ℚ)) := by
  rcases Nat.exists_eq_add_of_lt (show 0 < i by omega) with ⟨j, hj⟩
  subst hj
  simp only [Nat.zero_add, wilderAvg]
  rw [if_neg (by omega), if_neg (by omega)]
  rfl

/-! ## Claims -/

/-- C1: For the Wilder-mode RSI calculator with period `p` over a price
series: the indicator is undefined (`none`) for every index `< p-1`; at
index `p-1` the average gain and loss are seeded as the simple mean of the
first `p` per-step gains/losses; for every `i ≥ p` the averages follow
`avg[i] = (avg[i-1]*(p-1) + v[i]) / p`; and at every index where both
averages are defined with nonzero average loss the indicator equals
`100 - 100/(1 + avgGain/avgLoss)`. -/
theorem rsi_wilder_spec (prices : List ℚ) (p : ℕ) (hp : 1 ≤ p) :
    (∀ i, i + 1 < p → calculate_rsi prices p i = none)
    ∧ wilderAvg (gainAt prices) p (p - 1)
        = some ((((List.range p).map (gainAt prices)).sum) / (p : ℚ))
    ∧ wilderAvg (lossAt prices) p (p - 1)
        = some ((((List.range p).map (lossAt prices)).sum) / (p : ℚ))
    ∧ (∀ v i, p ≤ i → wilderAvg v p i
        = (wilderAvg v p (i - 1)).map (fun prev => (prev * ((p : ℚ) - 1) + v i) / (p : ℚ)))
    ∧ (∀ i ag al, wilderAvg (gainAt prices) p i = some ag
        → wilderAvg (lossAt prices) p i = some al → al ≠ 0
        → calculate_rsi prices p i = some (100 - 100 / (1 + ag / al))) := by
  refine ⟨fun i hi => ?_, wilderAvg_seed _ p hp, wilderAvg_seed _ p hp,
    fun v i hi => wilderAvg_rec v p i hp hi, fun i ag al hg hl hal => ?_⟩
  · have hg := wilderAvg_undefined (gainAt prices) p i hi
    simp [calculate_rsi, hg]
  · simp [calculate_rsi, hg, hl, rsiOfAvgs, hal]

/-- Witness for C1 at the concrete series `[7,7,7]` with period 2. -/
theorem rsi_wilder_spec_witness :
    calculate_rsi [7, 7, 7] 2 0 = none
    ∧ wilderAvg (gainAt [7, 7, 7]) 2 1
        = some ((((List.range 2).map (gainAt [7, 7, 7])).sum) / (2 : ℚ)) := by
  refine ⟨(rsi_wilder_spec [7, 7, 7] 2 (by norm_num)).1 0 (by norm_num), ?_⟩
  exact (rsi_wilder_spec [7, 7, 7] 2 (by norm_num)).2.1

/-- C5 counterexample: on the flat series `[7,7,7]` with period 2 the
average loss at index 1 is 0 and the average gain is 0 too, so the float
quotient is NaN and the computed RSI is NaN (`none`), not the saturated
100 the claim requires at every zero-average-loss index. -/
theorem rsi_avg_loss_zero_counterexample :
    wilderAvg (lossAt [7, 7, 7]) 2 1 = some 0
    ∧ calculate_rsi [7, 7, 7] 2 1 ≠ some 100 := by
  constructor
  · norm_num [wilderAvg, lossAt, List.range_succ]
  · norm_num [calculate_rsi, wilderAvg, rsiOfAvgs, gainAt, lossAt, List.range_succ]
    exact fun h => Option.noConfusion h

/-- C5 amended: at a defined index with zero average loss the RSI is 100
whenever the average gain is nonzero; when both averages are zero the RSI
is NaN (`none`), and days whose indicator is NaN are skipped by the
simulator (`pd.notna` guard) rather than surfaced as an error. -/
theorem rsi_avg_loss_zero_saturates (prices : List ℚ) (p i : ℕ) (ag al : ℚ)
    (hg : wilderAvg (gainAt prices) p i = some ag)
    (hl : wilderAvg (lossAt prices) p i = some al)
    (hal : al = 0) :
    (ag ≠ 0 → calculate_rsi prices p i = some 100)
    ∧ (ag = 0 → calculate_rsi prices p i = none)
    ∧ (∀ buyT sellT cap : ℚ, ∀ date : ℤ, ∀ price : ℚ, ∀ st : BTState, ∀ acc : SimAcc,
        btDay buyT sellT date price none st = (st, none)
          ∧ (simStep buyT sellT cap acc (date, price, none)).st = acc.st
          ∧ (simStep buyT sellT cap acc (date, price, none)).trades = acc.trades) := by
  subst hal
  refine ⟨fun hag => ?_, fun hag => ?_, fun buyT sellT cap date price st acc => ?_⟩
  · simp [calculate_rsi, hg, hl, rsiOfAvgs, hag]
  · simp [calculate_rsi, hg, hl, rsiOfAvgs, hag]
  · refine ⟨rfl, ?_, ?_⟩ <;> simp [simStep, btDay]

/-- Witness for C5 (amended) on a strictly falling series: average loss is
positive, average gain is 0, and the RSI evaluates via the theorem. -/
theorem rsi_avg_loss_zero_saturates_witness :
    calculate_rsi [10, 9, 8] 2 1 = some 0
    ∧ calculate_rsi [8, 9, 10] 2 1 = some 100 := by
  constructor
  · norm_num [calculate_rsi, wilderAvg, rsiOfAvgs, gainAt, lossAt, List.range_succ]
  · have h := rsi_avg_loss_zero_saturates [8, 9, 10] 2 1 (1 / 2) 0
      (by norm_num [wilderAvg, gainAt, List.range_succ])
      (by norm_num [wilderAvg, lossAt, List.range_succ]) rfl
    exact h.1 (by norm_num)

/-- C2: in lot mode, whenever a sell signal executes (`rsi > sellThreshold`
while long and `floor(shares/100)*100 > 0`), the whole-lot part is sold and
the sub-lot remainder is liquidated at the same close, so the post-sell
state has `shares = 0` and cash increased by exactly the pre-sale
`shares * price`. -/
theorem sell_signal_liquidates (buyT sellT : ℚ) (date : ℤ) (price r : ℚ)
    (st : BTState) (hr : sellT < r) (hpos : st.position = 1)
    (hlot : 0 < lotSellQty st.shares) :
    (btDay buyT sellT date price (some r) st).1.shares = 0
    ∧ (btDay buyT sellT date price (some r) st).1.cash = st.cash + st.shares * price := by
  have hsh : (100 : ℚ) ≤ st.shares := lotSellQty_pos_iff hlot
  have hsh0 : 0 < st.shares := lt_of_lt_of_le (by norm_num) hsh
  have hrem : st.shares - lotSellQty st.shares < 100 := sub_lotSellQty_lt hsh0.le
  have hnotbuy : ¬(r < buyT ∧ st.position = 0) := by
    rintro ⟨-, h0⟩; rw [hpos] at h0; exact one_ne_zero h0
  simp only [btDay]
  rw [if_neg hnotbuy, if_pos (show sellT < r ∧ st.position = 1 from ⟨hr, hpos⟩),
    if_pos hsh0, if_pos hlot, if_pos hrem]
  constructor
  · rfl
  · show st.cash + lotSellQty st.shares * price + (st.shares - lotSellQty st.shares) * price
      = st.cash + st.shares * price
    ring

/-- Witness for C2: long 250 shares at price 10, sell signal 80 > 70:
the state ends with 0 shares and cash increased by 2500. -/
theorem sell_signal_liquidates_witness :
    (btDay 40 70 0 10 (some 80) ⟨5, 250, 1⟩).1.shares = 0
    ∧ (btDay 40 70 0 10 (some 80) ⟨5, 250, 1⟩).1.cash = 5 + 250 * 10 := by
  exact sell_signal_liquidates 40 70 0 10 80 ⟨5, 250, 1⟩ (by norm_num) rfl
    (by norm_num [lotSellQty, pyint])

/-- C3: the main engine (`calculate_statistics`) annualizes over the
calendar-day span of the DailyValue dates: a 100% total return whose trace
spans 365 calendar days (two trading rows dated day 0 and day 365)
annualizes to exactly 100%, and a span of 0 reports 0 without dividing by
zero.  The `calc_annual` helper of rsi_params_test.py `main` feeds the
same power formula `days = len(df)` — the trading-row count (here 2) —
and reports more than 12600% on the same data, contradicting the claim
for that cited code site. -/
theorem annual_return_day_basis :
    stats_annual_return
        [⟨0, 1, none, 0, 0, 100000, 0, 0⟩, ⟨365, 2, none, 0, 0, 200000, 100, 0⟩] = 100
    ∧ annual_return_of 100 0 = 0
    ∧ 12700 ≤ params_calc_annual 100 2
    ∧ params_calc_annual 100 2 ≠ 100 := by
  have h128 : (2 : ℝ) ^ (7 : ℝ) = 128 := by
    rw [show (7 : ℝ) = ((7 : ℕ) : ℝ) by norm_num, Real.rpow_natCast]
    norm_num
  have hmono : (2 : ℝ) ^ (7 : ℝ) ≤ (2 : ℝ) ^ ((365 : ℝ) / 2) :=
    Real.rpow_le_rpow_of_exponent_le (by norm_num) (by norm_num)
  have hbig : (128 : ℝ) ≤ (2 : ℝ) ^ ((365 : ℝ) / 2) := h128 ▸ hmono
  have hval : params_calc_annual 100 2 = ((2 : ℝ) ^ ((365 : ℝ) / 2) - 1) * 100 := by
    unfold params_calc_annual
    norm_num
  refine ⟨?_, ?_, ?_, ?_⟩
  · unfold stats_annual_return stats_calendar_days annual_return_of
    norm_num
  · unfold annual_return_of
    norm_num
  · rw [hval]; linarith
  · rw [hval]; intro heq; nlinarith

/-- C4 counterexample: inside the optimizer, `run_backtest` with period 3
and thresholds 20/60 on the falling series `[10, 9, 8]` executes one buy
(RSI hits 0 at index 2) and no sell, yet reports `trade_count = 0`: its
counter is incremented in the sell branch only, so it is not the number of
buy trades. -/
theorem opt_trade_count_counterexample :
    (opt_run_backtest 3 20 60 [10, 9, 8]).buys = 1
    ∧ (opt_run_backtest 3 20 60 [10, 9, 8]).trade_count = 0
    ∧ (opt_run_backtest 3 20 60 [10, 9, 8]).trade_count
        ≠ (opt_run_backtest 3 20 60 [10, 9, 8]).buys := by
  have hrun : opt_run_backtest 3 20 60 [10, 9, 8]
      = ⟨INITIAL_CAPITAL - 12500 * 8, 12500, 1, 0, 0, 8, 1⟩ := by
    norm_num [opt_run_backtest, optDay, calculate_rsi, wilderAvg, rsiOfAvgs, gainAt,
      lossAt, lotBuyQty, lotSellQty, pyint, List.range_succ, INITIAL_CAPITAL]
  rw [hrun]
  refine ⟨rfl, rfl, ?_⟩
  intro h
  exact Nat.noConfusion h

/-- C4 amended: in the optimizer the reported `trade_count` counts sell
executions; on every run it satisfies
`trade_count + final position = number of executed buys`, so it equals
the buy count exactly when the run ends flat and is one less when the run
ends still long. -/
theorem opt_trade_count_invariant (p : ℕ) (buyT sellT : ℚ) (closes : List ℚ) :
    (opt_run_backtest p buyT sellT closes).position ≤ 1
    ∧ (opt_run_backtest p buyT sellT closes).trade_count
        + (opt_run_backtest p buyT sellT closes).position
        = (opt_run_backtest p buyT sellT closes).buys := by
  unfold opt_run_backtest
  refine foldl_invariant
    (P := fun st : OptState => st.position ≤ 1 ∧ st.trade_count + st.position = st.buys)
    _ _ _ ⟨by norm_num, by norm_num⟩ ?_
  intro st i _ hP
  unfold optDay
  cases calculate_rsi closes p i with
  | none => exact hP
  | some r =>
      simp only
      split_ifs with h1 h2 h3 h4 h5 h6 <;> simp_all

/-- C6 counterexample: a dividend day on a long position of 1000 shares
with 0.05/unit at price 10 (no signal that day) leaves 1005 shares and
cash unchanged — but the trades list stays empty: the source appends
trade records only in the buy/sell branches, so no dividend-reinvest
Trade is emitted, contrary to the claim's last conjunct. -/
theorem dividend_no_trade_counterexample :
    (divDay 40 70 (fun d => if d = 9 then some (5 / 100) else none) 9 10 none
        ⟨0, 1000, 1, 0, []⟩).shares = 1005
    ∧ (divDay 40 70 (fun d => if d = 9 then some (5 / 100) else none) 9 10 none
        ⟨0, 1000, 1, 0, []⟩).cash = 0
    ∧ (divDay 40 70 (fun d => if d = 9 then some (5 / 100) else none) 9 10 none
        ⟨0, 1000, 1, 0, []⟩).trades = [] := by
  norm_num [divDay, applyDividend, divSignal]

/-- C6 amended: under reinvest-immediate, a dividend dated on a day with
`shares > 0` is applied before the signal evaluation, adding
`shares * divPerUnit / price` shares with cash unchanged and the dividend
amount accumulated into `dividend_total`; no Trade record is emitted for
the dividend itself. -/
theorem dividend_reinvest_immediate_spec (buyT sellT : ℚ) (divOn : ℤ → Option ℚ)
    (date : ℤ) (price : ℚ) (rsi : Option ℚ) (st : DivState) (d : ℚ)
    (hdiv : divOn date = some d) (hsh : 0 < st.shares) :
    (applyDividend divOn date price st).shares = st.shares + st.shares * d / price
    ∧ (applyDividend divOn date price st).cash = st.cash
    ∧ (applyDividend divOn date price st).position = st.position
    ∧ (applyDividend divOn date price st).trades = st.trades
    ∧ (applyDividend divOn date price st).dividend_total
        = st.dividend_total + st.shares * d
    ∧ divDay buyT sellT divOn date price rsi st
        = divSignal buyT sellT date price rsi (applyDividend divOn date price st) := by
  simp [applyDividend, hdiv, hsh, divDay]

/-- Witness for C6 (amended): the spec's concrete scenario — 1000 shares,
dividend 0.05/unit, price 10 — yields 1005 shares with cash unchanged. -/
theorem dividend_reinvest_immediate_spec_witness :
    (applyDividend (fun _ => some (5 / 100)) 0 10 ⟨77, 1000, 1, 0, []⟩).shares = 1005
    ∧ (applyDividend (fun _ => some (5 / 100)) 0 10 ⟨77, 1000, 1, 0, []⟩).cash = 77 := by
  have h := dividend_reinvest_immediate_spec 40 70 (fun _ => some (5 / 100)) 0 10 none
    ⟨77, 1000, 1, 0, []⟩ (5 / 100) rfl (by norm_num)
  refine ⟨?_, h.2.1⟩
  rw [h.1]
  norm_num

/-- C7: one aligner step for a reference date `d`: a date present in the
benchmark uses that exact price, the first matched price becoming the
basis with return 0 and total-value = capital; later matched dates use
`cap * (price / basis)`; a date absent from the benchmark carries the
immediately preceding aligned total-value/return forward; and an absent
date with no prior aligned value is skipped (state unchanged). -/
theorem benchmark_align_spec (cap : ℚ) (m : ℤ → Option ℚ) (acc : BenchAcc) (d : ℤ)
    (hcap : cap ≠ 0) :
    (∀ price, m d = some price → acc.start_price = none → price ≠ 0 →
        benchStep cap m acc d = ⟨some price, acc.values ++ [⟨d, cap, 0⟩]⟩)
    ∧ (∀ price sp, m d = some price → acc.start_price = some sp →
        benchStep cap m acc d
          = ⟨some sp, acc.values
              ++ [⟨d, cap * (price / sp), (cap * (price / sp) / cap - 1) * 100⟩]⟩)
    ∧ (∀ lastv, m d = none → acc.values.getLast? = some lastv →
        benchStep cap m acc d
          = ⟨acc.start_price, acc.values ++ [⟨d, lastv.total_value, lastv.ret⟩]⟩)
    ∧ (m d = none → acc.values.getLast? = none → benchStep cap m acc d = acc) := by
  refine ⟨fun price hm hsp hp => ?_, fun price sp hm hsp => ?_,
    fun lastv hm hl => ?_, fun hm hl => ?_⟩
  · simp [benchStep, hm, hsp, div_self hp, div_self hcap]
  · simp [benchStep, hm, hsp]
  · simp [benchStep, hm, hl]
  · simp [benchStep, hm, hl]

/-- Witness for C7: a one-row benchmark matched on its exact date becomes
the basis: total-value = capital and return 0. -/
theorem benchmark_align_spec_witness :
    benchStep 100000 (datePriceMap [(5, 10)]) ⟨none, []⟩ 5
      = ⟨some 10, [⟨5, 100000, 0⟩]⟩ := by
  have h := (benchmark_align_spec 100000 (datePriceMap [(5, 10)]) ⟨none, []⟩ 5
    (by norm_num)).1 10 (by norm_num [datePriceMap]) rfl (by norm_num)
  simpa using h

/-- C8: every combination kept by the sweep grid satisfies
`buyThreshold < sellThreshold`; `test_single_combination` returns `None`
(no simulation) for any `buy ≥ sell` configuration; and the sweep produces
one result per kept combination (a skipped combination never aborts the
rest). -/
theorem sweep_config_guard :
    (∀ c ∈ sweep_combinations, c.2.1 < c.2.2)
    ∧ (∀ (p : ℕ) (buyT sellT : ℚ) (closes : List ℚ), sellT ≤ buyT →
        test_single_combination p buyT sellT closes = none)
    ∧ (∀ closes : List ℚ, (sweep_results closes).length = sweep_combinations.length) := by
  refine ⟨?_, ?_, ?_⟩
  · intro c hc
    unfold sweep_combinations at hc
    simp only [List.mem_flatMap, List.mem_map, List.mem_filter,
      decide_eq_true_eq] at hc
    obtain ⟨p, _, b, _, s, ⟨_, hbs⟩, rfl⟩ := hc
    exact hbs
  · intro p buyT sellT closes h
    simp [test_single_combination, h]
  · intro closes
    simp [sweep_results]

/-- Witness for C8: the spec's concrete scenario `buy=40, sell=30` is
rejected without simulating. -/
theorem sweep_config_guard_witness :
    test_single_combination 14 40 30 [] = none :=
  sweep_config_guard.2.1 14 40 30 [] (by norm_num)

/-- The engine state invariant: nonnegative cash and shares, and the
position flag set exactly when shares are held. -/
def BTInv (st : BTState) : Prop :=
  0 ≤ st.cash ∧ 0 ≤ st.shares ∧ (st.position = 1 ↔ 0 < st.shares)

theorem btDay_preserves_inv (buyT sellT : ℚ) (date : ℤ) (price : ℚ)
    (rsi : Option ℚ) (st : BTState) (hp : 0 < price) (h : BTInv st) :
    BTInv (btDay buyT sellT date price rsi st).1 := by
  obtain ⟨hc, hs, hps⟩ := h
  cases rsi with
  | none => exact ⟨hc, hs, hps⟩
  | some r =>
    simp only [btDay]
    split_ifs with h1 h2 h3 h4 h5 h6
    · have hle := lotBuyQty_mul_le hc hp
      refine ⟨?_, ?_, ?_⟩
      · show 0 ≤ st.cash - lotBuyQty st.cash price * price
        linarith
      · show 0 ≤ st.shares + lotBuyQty st.cash price
        linarith
      · show (1 : ℕ) = 1 ↔ 0 < st.shares + lotBuyQty st.cash price
        exact ⟨fun _ => by linarith, fun _ => rfl⟩
    · exact ⟨hc, hs, hps⟩
    · have hss := lotSellQty_nonneg hs
      have hsle := lotSellQty_le hs
      refine ⟨?_, le_refl 0, ?_⟩
      · show 0 ≤ st.cash + lotSellQty st.shares * price
          + (st.shares - lotSellQty st.shares) * price
        have := mul_nonneg hss hp.le
        have := mul_nonneg (by linarith : (0 : ℚ) ≤ st.shares - lotSellQty st.shares) hp.le
        linarith
      · show (0 : ℕ) = 1 ↔ 0 < (0 : ℚ)
        simp
    · exact absurd (sub_lotSellQty_lt hs) h6
    · exact ⟨hc, hs, hps⟩
    · exact ⟨hc, hs, hps⟩
    · exact ⟨hc, hs, hps⟩

theorem divState_preserves_inv (buyT sellT : ℚ) (divOn : ℤ → Option ℚ) (date : ℤ)
    (price : ℚ) (rsi : Option ℚ) (st : DivState) (hp : 0 < price)
    (hd : ∀ q, divOn date = some q → 0 ≤ q)
    (h : 0 ≤ st.cash ∧ 0 ≤ st.shares ∧ (st.position = 1 ↔ 0 < st.shares)) :
    0 ≤ (divDay buyT sellT divOn date price rsi st).cash
    ∧ 0 ≤ (divDay buyT sellT divOn date price rsi st).shares
    ∧ ((divDay buyT sellT divOn date price rsi st).position = 1
        ↔ 0 < (divDay buyT sellT divOn date price rsi st).shares) := by
  obtain ⟨hc, hs, hps⟩ := h
  unfold divDay
  have hmid : 0 ≤ (applyDividend divOn date price st).cash
      ∧ 0 ≤ (applyDividend divOn date price st).shares
      ∧ ((applyDividend divOn date price st).position = 1
          ↔ 0 < (applyDividend divOn date price st).shares) := by
    unfold applyDividend
    cases hdo : divOn date with
    | none => exact ⟨hc, hs, hps⟩
    | some q =>
      have hq := hd q hdo
      simp only
      split_ifs with hsh
      · have hadd : 0 ≤ st.shares * q / price := by positivity
        refine ⟨hc, by simp; linarith, ?_⟩
        show st.position = 1 ↔ 0 < st.shares + st.shares * q / price
        rw [hps]
        constructor
        · intro; linarith
        · intro; exact hsh
      · exact ⟨hc, hs, hps⟩
  obtain ⟨hc2, hs2, hps2⟩ := hmid
  set mid := applyDividend divOn date price st with hmiddef
  cases rsi with
  | none => exact ⟨hc2, hs2, hps2⟩
  | some r =>
    simp only [divSignal]
    split_ifs with h1 h2 h3 h4 h5
    · have hle := lotBuyQty_mul_le hc2 hp
      have hpos := lotBuyQty_nonneg hc2 hp
      refine ⟨?_, ?_, ?_⟩
      · show 0 ≤ mid.cash - lotBuyQty mid.cash price * price
        linarith
      · show 0 ≤ mid.shares + lotBuyQty mid.cash price
        linarith
      · show (1 : ℕ) = 1 ↔ 0 < mid.shares + lotBuyQty mid.cash price
        exact ⟨fun _ => by linarith, fun _ => rfl⟩
    · exact ⟨hc2, hs2, hps2⟩
    · have hss := lotSellQty_nonneg hs2
      have hsle := lotSellQty_le hs2
      refine ⟨?_, le_refl 0, ?_⟩
      · show 0 ≤ mid.cash + lotSellQty mid.shares * price
          + (mid.shares - lotSellQty mid.shares) * price
        have := mul_nonneg hss hp.le
        have := mul_nonneg (by linarith : (0 : ℚ) ≤ mid.shares - lotSellQty mid.shares) hp.le
        linarith
      · simp
    · exact absurd (sub_lotSellQty_lt hs2) h5
    · exact ⟨hc2, hs2, hps2⟩
    · exact ⟨hc2, hs2, hps2⟩

theorem run_backtest_rows_consistency (buyT sellT cap : ℚ)
    (rows : List (ℤ × ℚ × Option ℚ)) (hcap : 0 ≤ cap)
    (hpr : ∀ row ∈ rows, 0 < row.2.1) :
    BTInv (run_backtest_rows buyT sellT cap rows).st
    ∧ ∀ dv ∈ (run_backtest_rows buyT sellT cap rows).dvs,
        (0 < dv.shares ↔ dv.position = 1) := by
  unfold run_backtest_rows
  refine foldl_invariant
    (P := fun acc : SimAcc => BTInv acc.st
      ∧ ∀ dv ∈ acc.dvs, (0 < dv.shares ↔ dv.position = 1))
    _ _ _ ⟨⟨hcap, le_refl 0, by simp [BTInv]⟩, by simp⟩ ?_
  rintro acc row hrow ⟨hinv, hdvs⟩
  have hp := hpr row hrow
  have hinv2 := btDay_preserves_inv buyT sellT row.1 row.2.1 row.2.2 acc.st hp hinv
  refine ⟨hinv2, ?_⟩
  intro dv hdv
  simp only [simStep, List.mem_append, List.mem_singleton] at hdv
  rcases hdv with h | h
  · exact hdvs dv h
  · subst h
    exact hinv2.2.2.symm

/-- C9: at every DailyValue snapshot of a simulated run over positive
closes, `shares > 0` iff the position flag is long; the final state of
the dividend-reinvest run satisfies the same invariant; and a buy signal
whose computed lot quantity is 0 causes no transition at all (the state
is returned unchanged and no trade is recorded). -/
theorem state_consistency (p : ℕ) (buyT sellT cap : ℚ) (days : List (ℤ × ℚ))
    (divOn : ℤ → Option ℚ) (hcap : 0 ≤ cap)
    (hpr : ∀ dp ∈ days, 0 < dp.2)
    (hd : ∀ (dte : ℤ) (q : ℚ), divOn dte = some q → 0 ≤ q) :
    (∀ dv ∈ (run_backtest p buyT sellT cap days).dvs,
        (0 < dv.shares ↔ dv.position = 1))
    ∧ ((run_backtest_reinvest_immediate p buyT sellT cap divOn days).position = 1
        ↔ 0 < (run_backtest_reinvest_immediate p buyT sellT cap divOn days).shares)
    ∧ (∀ (date : ℤ) (price r : ℚ) (st : BTState), st.position = 0
        → lotBuyQty st.cash price = 0
        → btDay buyT sellT date price (some r) st = (st, none)) := by
  refine ⟨?_, ?_, ?_⟩
  · have hrows : ∀ row ∈ (List.range days.length).map (fun i =>
        ((days.getD i (0, 0)).1, (days.getD i (0, 0)).2,
          calculate_rsi (days.map Prod.snd) p i)), 0 < row.2.1 := by
      intro row hrow
      simp only [List.mem_map, List.mem_range] at hrow
      obtain ⟨i, hi, rfl⟩ := hrow
      have hmem : days.getD i (0, 0) ∈ days := by
        rw [List.getD_eq_getElem _ _ hi]
        exact List.getElem_mem _
      exact hpr _ hmem
    exact (run_backtest_rows_consistency buyT sellT cap _ hcap hrows).2
  · unfold run_backtest_reinvest_immediate
    have hfold := foldl_invariant
      (P := fun st : DivState => 0 ≤ st.cash ∧ 0 ≤ st.shares
        ∧ (st.position = 1 ↔ 0 < st.shares))
      (fun st i => divDay buyT sellT divOn (days.getD i (0, 0)).1 (days.getD i (0, 0)).2
        (calculate_rsi (days.map Prod.snd) p i) st)
      (List.range days.length) ⟨cap, 0, 0, 0, []⟩
      ⟨hcap, le_refl 0, by simp⟩ ?_
    · exact hfold.2.2
    · intro st i hi hP
      simp only [List.mem_range] at hi
      have hmem : days.getD i (0, 0) ∈ days := by
        rw [List.getD_eq_getElem _ _ hi]
        exact List.getElem_mem _
      exact divState_preserves_inv buyT sellT divOn (days.getD i (0, 0)).1
        (days.getD i (0, 0)).2 (calculate_rsi (days.map Prod.snd) p i) st
        (hpr _ hmem) (fun q => hd _ q) hP
  · intro date price r st hpos hlot
    simp only [btDay]
    split_ifs with h1 h2 h3 h4 h5 h6 <;> try rfl
    · rw [hlot] at h2
      exact absurd h2 (lt_irrefl 0)
    all_goals exact absurd h3.2 (by rw [hpos]; norm_num)

/-- Witness for C9: a zero-lot buy signal on a flat 0-share state causes
no transition. -/
theorem state_consistency_witness :
    btDay 40 70 0 10 (some 50) ⟨0, 0, 0⟩ = (⟨0, 0, 0⟩, none) := by
  have h := state_consistency 14 40 70 100000 [((0 : ℤ), (10 : ℚ))] (fun _ => none)
    (by norm_num)
    (by intro dp hdp; simp only [List.mem_singleton] at hdp; subst hdp; norm_num)
    (by intro dte q hq; exact absurd hq (by simp))
  exact h.2.2 0 10 50 ⟨0, 0, 0⟩ rfl (by norm_num [lotBuyQty, pyint])

/-- C10: the buy-and-hold baseline is lot-quantized: it buys
`floor(cap / firstClose / 100) * 100` shares at the first close, the
leftover cash stays fixed for the whole run, every entry has
total-value = leftover + shares * close (and the matching return), and
the final return differs from the raw price-ratio return
`(lastClose/firstClose - 1) * 100` whenever the leftover is nonzero and
the last close differs from the first. -/
theorem buy_and_hold_spec (cap p0 : ℚ) (d0 : ℤ) (rest : List (ℤ × ℚ)) :
    (∀ i, i < ((d0, p0) :: rest).length →
        (calculate_buy_and_hold cap ((d0, p0) :: rest)).getD i ⟨0, 0, 0⟩
          = ⟨(((d0, p0) :: rest).getD i (0, 0)).1,
             (cap - lotBuyQty cap p0 * p0)
               + lotBuyQty cap p0 * (((d0, p0) :: rest).getD i (0, 0)).2,
             (((cap - lotBuyQty cap p0 * p0)
               + lotBuyQty cap p0 * (((d0, p0) :: rest).getD i (0, 0)).2) / cap - 1)
               * 100⟩)
    ∧ (∀ (dl : ℤ) (pl : ℚ), ((d0, p0) :: rest).getLast? = some (dl, pl) →
        cap - lotBuyQty cap p0 * p0 ≠ 0 → pl ≠ p0 → 0 < p0 →
        ((calculate_buy_and_hold cap ((d0, p0) :: rest)).getLast?.elim 0 ValuePoint.ret)
          ≠ (pl / p0 - 1) * 100) := by
  constructor
  · intro i hi
    simp only [calculate_buy_and_hold]
    rw [List.getD_eq_getElem _ _ (by simpa using hi), List.getElem_map,
      List.getD_eq_getElem _ _ hi]
  · intro dl pl hlast hrem hpl hp0
    have hp0ne : p0 ≠ 0 := ne_of_gt hp0
    have hcapne : cap ≠ 0 := by
      intro h0
      apply hrem
      rw [h0]
      simp [lotBuyQty, pyint]
    have hlast2 : (calculate_buy_and_hold cap ((d0, p0) :: rest)).getLast?
        = some ⟨dl, (cap - lotBuyQty cap p0 * p0) + lotBuyQty cap p0 * pl,
            (((cap - lotBuyQty cap p0 * p0) + lotBuyQty cap p0 * pl) / cap - 1) * 100⟩ := by
      simp only [calculate_buy_and_hold]
      rw [List.getLast?_map, hlast]
      rfl
    rw [hlast2]
    set sh := lotBuyQty cap p0 with hshdef
    set rem := cap - sh * p0 with hremdef
    show ((rem + sh * pl) / cap - 1) * 100 ≠ (pl / p0 - 1) * 100
    intro heq
    have h1 : (rem + sh * pl) / cap = pl / p0 := by linarith
    have h2 : (rem + sh * pl) * p0 = pl * cap := (div_eq_div_iff hcapne hp0ne).mp h1
    have hcapeq : cap = rem + sh * p0 := by rw [hremdef]; ring
    have h3 : rem * (p0 - pl) = 0 := by linear_combination h2 + pl * hcapeq
    rcases mul_eq_zero.mp h3 with h | h
    · exact hrem h
    · exact hpl (by linarith)

/-- Witness for C10: capital 100000, first close 3 (33300 shares, leftover
100), last close 4: the baseline's final return differs from the raw
price-ratio return. -/
theorem buy_and_hold_spec_witness :
    ((calculate_buy_and_hold 100000 [((0 : ℤ), (3 : ℚ)), (1, 4)]).getLast?.elim 0
        ValuePoint.ret)
      ≠ ((4 : ℚ) / 3 - 1) * 100 :=
  (buy_and_hold_spec 100000 3 0 [(1, 4)]).2 1 4 rfl
    (by norm_num [lotBuyQty, pyint]) (by norm_num) (by norm_num)

end JTrading
